import Mathlib

/-!
Shallow embedding of the FastCGI client of `gophpfpm` (fcgi_client.go,
fpm_client.go).  Bytes are modelled as `Nat` values (< 256 on well-formed
wire data), byte streams as `List Nat`, strings as Go strings (`String`,
or `List Char` inside the HTTP-response parser).  Machine-integer casts
from the Go source (`uint16(..)`, `byte(..)`, `uint32(..)`) are written as
explicit `% 2^w` / bit operations.
-/

/-! ## Record codec (fcgi_client.go) -/

/-- Record type constant `FCGI_END_REQUEST = 3`. -/
def FCGI_END_REQUEST : Nat := 3

/-- Record type constant `FCGI_PARAMS = 4`. -/
def FCGI_PARAMS : Nat := 4

/-- Record type constant `FCGI_STDIN = 5`. -/
def FCGI_STDIN : Nat := 5

/-- Record type constant `FCGI_STDOUT = 6`. -/
def FCGI_STDOUT : Nat := 6

/-- The 8-byte FastCGI record header, as in `FCgiRecord` (fcgi_client.go):
`Version byte, Type byte, RequestId uint16, ContentLength uint16,
PaddingLength byte, Reserved byte`. -/
structure FCgiRecord where
  version : Nat
  type : Nat
  requestId : Nat
  contentLength : Nat
  paddingLength : Nat
  reserved : Nat
deriving DecidableEq

/-- Big-endian encoding of a 16-bit value, as produced by
`binary.Write(..., binary.BigEndian, ...)` for a `uint16` field. -/
def be16 (n : Nat) : List Nat := [n / 256 % 256, n % 256]

/-- Big-endian encoding of a 32-bit value, as produced by
`binary.BigEndian.PutUint32`. -/
def be32 (n : Nat) : List Nat :=
  [n / 16777216 % 256, n / 65536 % 256, n / 256 % 256, n % 256]

/-- Big-endian decoding of a 4-byte list (inverse of `be32` used to state
what the wire bytes denote). -/
def decodeBe32 (l : List Nat) : Nat :=
  match l with
  | [b0, b1, b2, b3] => b0 * 16777216 + b1 * 65536 + b2 * 256 + b3
  | _ => 0

/-- Go's `byte(-contentLength & 7)`: two's-complement negation followed by
masking the low three bits equals `(-contentLength) mod 8`. -/
def negMod8 (n : Nat) : Nat := ((-(n : Int)) % 8).toNat

/-- The wire bytes of the 8-byte header written by
`binary.Write(buf, binary.BigEndian, header)` in `writeRecord`:
each field in declaration order, multi-byte fields big-endian. -/
def encodeRecordHeader (h : FCgiRecord) : List Nat :=
  [h.version % 256, h.type % 256] ++ be16 (h.requestId % 65536) ++
    be16 (h.contentLength % 65536) ++ [h.paddingLength % 256, h.reserved % 256]

/-- The header value built by `writeRecord` (fcgi_client.go 298-308) for a
payload of length `contentLength`: `ContentLength: uint16(contentLength)`,
`PaddingLength: byte(-contentLength & 7)`. -/
def writeRecordHeader (requestId recordType contentLength : Nat) : FCgiRecord :=
  { version := 1
    type := recordType
    requestId := requestId
    contentLength := contentLength % 65536
    paddingLength := negMod8 contentLength
    reserved := 0 }

/-- All bytes `writeRecord` sends to the connection for one record:
the encoded header, the payload, then `PaddingLength` zero bytes
(`pad := make([]byte, header.PaddingLength)` is all zeros). -/
def writeRecord (requestId recordType : Nat) (contentData : List Nat) : List Nat :=
  let header := writeRecordHeader requestId recordType contentData.length
  encodeRecordHeader header ++ contentData ++ List.replicate header.paddingLength 0

/-! ## STDIN stream (`sendBody`, fcgi_client.go 224-238) -/

/-- The consecutive chunks produced by the loop
`for i := 0; i < len(r.Body); i += chunkSize` with `chunkSize = 65535`:
each iteration sends `r.Body[i:min(i+65535, len)]`. -/
def bodyChunks : List Nat → List (List Nat)
  | [] => []
  | x :: xs => (x :: xs).take 65535 :: bodyChunks ((x :: xs).drop 65535)
termination_by b => b.length
decreasing_by simp; omega

/-- The ordered payloads of the `FCGI_STDIN` records written by `sendBody`:
the chunks of the body (only entered when `len(r.Body) > 0`), then the
final zero-length record `writeRecord(id, FCGI_STDIN, []byte{})`. -/
def sendBody (body : List Nat) : List (List Nat) :=
  (if body.length > 0 then bodyChunks body else []) ++ [[]]

/-- Expected record lengths of the STDIN stream for a body of `n` bytes,
before the terminating zero-length record. -/
def chunkLensCore (n : Nat) : List Nat :=
  if n = 0 then []
  else if n ≤ 65535 then [n]
  else 65535 :: chunkLensCore (n - 65535)
termination_by n
decreasing_by omega

/-- Expected record lengths of the whole STDIN stream for a body of `n`
bytes: the chunk lengths followed by the zero-length terminator. -/
def chunkLens (n : Nat) : List Nat := chunkLensCore n ++ [0]

/-! ## PARAMS stream (`sendParams`, fcgi_client.go 196-221) -/

/-- Byte list of an ASCII Go string (`len` of a Go string counts bytes;
all parameter names and values in this program are ASCII). -/
def asciiBytes (s : String) : List Nat := s.toList.map Char.toNat

/-- Payload of the PARAMS record built for one `(name, value)` pair:
`binary.BigEndian.PutUint32(b, uint32(len(name))|1<<31); buf.Write(b[:4])`
for the name length, the same for the value length, then the name bytes
and the value bytes. -/
def encodeNameValue (name value : List Nat) : List Nat :=
  be32 (name.length % 4294967296 ||| 2147483648) ++
    be32 (value.length % 4294967296 ||| 2147483648) ++ name ++ value

/-- Go map assignment `m[k] = v` on an association list with the map's
lookup semantics: overwrite the entry for `k` if present, else add it. -/
def mapInsert (m : List (String × String)) (k v : String) : List (String × String) :=
  if m.any (fun kv => kv.1 = k) then
    m.map (fun kv => if kv.1 = k then (k, v) else kv)
  else m ++ [(k, v)]

/-- Go map lookup `m[k]` (the `ok` form): first entry for `k`, if any. -/
def mapLookup (m : List (String × String)) (k : String) : Option String :=
  (m.find? (fun kv => kv.1 = k)).map (fun kv => kv.2)

/-- The parameter map after the first step of `sendParams`
(fcgi_client.go 197-199): when the body is non-empty the entry
`r.Params["CONTENT_LENGTH"] = strconv.Itoa(len(r.Body))` is inserted
in place (the Go map is shared with the caller). -/
def sendParamsParams (params : List (String × String)) (body : List Nat)
    : List (String × String) :=
  if body.length > 0 then mapInsert params "CONTENT_LENGTH" (toString body.length)
  else params

/-- The updated parameter map together with the ordered payloads of the
`FCGI_PARAMS` records written by `sendParams`: one record per pair, then
the zero-length terminator `writeRecord(id, FCGI_PARAMS, []byte{})`. -/
def sendParams (params : List (String × String)) (body : List Nat)
    : List (String × String) × List (List Nat) :=
  let ps := sendParamsParams params body
  (ps, ps.map (fun kv => encodeNameValue (asciiBytes kv.1) (asciiBytes kv.2)) ++ [[]])

/-! ## Response record loop (`readResponse`, fcgi_client.go 240-270) -/

/-- Parse the 8-byte record header read by
`binary.Read(c.Conn, binary.BigEndian, &respHeader)`; `none` models a
read error (short stream). -/
def parseRecordHeader : List Nat → Option (FCgiRecord × List Nat)
  | v :: t :: r1 :: r0 :: c1 :: c0 :: p :: res :: rest =>
      some ({ version := v
              type := t
              requestId := r1 * 256 + r0
              contentLength := c1 * 256 + c0
              paddingLength := p
              reserved := res }, rest)
  | _ => none

/-- Size of the buffer allocated for a matching record:
`make([]byte, respHeader.ContentLength+uint16(respHeader.PaddingLength))`
— the addition is performed in `uint16` arithmetic. -/
def matchedReadLen (h : FCgiRecord) : Nat :=
  (h.contentLength + h.paddingLength) % 65536

/-- The record loop of `readResponse`, reading from the byte stream until
an `FCGI_END_REQUEST` record with the matching request id; returns the
accumulated stdout bytes.  A record whose request id differs hits
`continue` after only the header has been read, so its payload and
padding are NOT consumed.  `fuel` bounds the iteration count; `none`
models a read error (or exhausted fuel). -/
def readResponseRecords (reqId : Nat) : Nat → List Nat → List Nat → Option (List Nat)
  | 0, _, _ => none
  | fuel + 1, stream, stdout =>
    match parseRecordHeader stream with
    | none => none
    | some (h, rest) =>
      if h.requestId ≠ reqId then
        readResponseRecords reqId fuel rest stdout
      else
        let n := matchedReadLen h
        if rest.length < n then none
        else
          let b := rest.take n
          let stdout' := if h.type = FCGI_STDOUT then stdout ++ b.take h.contentLength
                         else stdout
          if h.type = FCGI_END_REQUEST then some stdout'
          else readResponseRecords reqId fuel (rest.drop n) stdout'

/-- Reference variant following the specification's words (§4.2 step 4):
a record with a non-matching request id is skipped by reading its header
and then discarding exactly `content_length + padding_length` bytes, so
the next header read begins at the following record boundary.  Otherwise
identical to `readResponseRecords`. -/
def readResponseRecordsSpec (reqId : Nat) : Nat → List Nat → List Nat → Option (List Nat)
  | 0, _, _ => none
  | fuel + 1, stream, stdout =>
    match parseRecordHeader stream with
    | none => none
    | some (h, rest) =>
      if h.requestId ≠ reqId then
        let n := h.contentLength + h.paddingLength
        if rest.length < n then none
        else readResponseRecordsSpec reqId fuel (rest.drop n) stdout
      else
        let n := matchedReadLen h
        if rest.length < n then none
        else
          let b := rest.take n
          let stdout' := if h.type = FCGI_STDOUT then stdout ++ b.take h.contentLength
                         else stdout
          if h.type = FCGI_END_REQUEST then some stdout'
          else readResponseRecordsSpec reqId fuel (rest.drop n) stdout'

/-- Concrete stream exhibiting the skip bug: a record for request id 2
(type STDOUT, content length 8, padding 0) whose payload bytes happen to
look like a header for request id 1 with content length 65535, followed
by the real END_REQUEST record for request id 1. -/
def skipBugStream : List Nat :=
  [1, 6, 0, 2, 0, 8, 0, 0] ++        -- header: id 2, length 8, padding 0
    [0, 6, 0, 1, 255, 255, 0, 0] ++  -- payload of the id-2 record
    [1, 3, 0, 1, 0, 0, 0, 0]         -- END_REQUEST header: id 1, length 0

/-! ## Retry policy (`SendRequest`, fcgi_client.go 126-147) -/

/-- A Go `error` value: either a leaf message or a message wrapping a
cause, as built by `fmt.Errorf("...: %w", err)`. -/
inductive GoError where
  | base (msg : String)
  | wrap (msg : String) (cause : GoError)
deriving DecidableEq

/-- `errors.Unwrap` for `GoError`: the cause of a `%w` wrap. -/
def errorCause : GoError → Option GoError
  | GoError.base _ => none
  | GoError.wrap _ e => some e

/-- Result of one `SendRequest` run: the returned value and how many
times `conn.reconnect` and `conn.doRequest` were invoked on the acquired
connection. -/
structure SendOutcome where
  result : Except GoError Nat
  reconnectCalls : Nat
  doRequestCalls : Nat

/-- `(c *FCgiConnection) reconnect()` (fcgi_client.go 157-167) with the
dial outcome supplied as an oracle: a dial error is wrapped as
`fmt.Errorf("could not reconnect: %w", err)`; success returns `nil`. -/
def reconnect (dial : Option GoError) : Option GoError :=
  dial.map (fun e => GoError.wrap "could not reconnect" e)

/-- `SendRequest` (fcgi_client.go 126-147) with the environment supplied
as oracles: `first` and `second` are the outcomes of the first and second
`conn.doRequest(r)` calls (the response abstracted to a `Nat`), `dial` is
the outcome of the dial inside `reconnect`.  On a first failure it
reconnects; a reconnect failure is returned as
`fmt.Errorf("could not reconnect: %w", err)`; otherwise the second
`doRequest` outcome is returned, a failure wrapped as
`fmt.Errorf("could not send the request %v: %w", r, err)`. -/
def sendRequest (first : Except GoError Nat) (dial : Option GoError)
    (second : Except GoError Nat) : SendOutcome :=
  match first with
  | Except.ok resp => ⟨Except.ok resp, 0, 1⟩
  | Except.error _ =>
    match reconnect dial with
    | some e => ⟨Except.error (GoError.wrap "could not reconnect" e), 1, 1⟩
    | none =>
      match second with
      | Except.ok resp => ⟨Except.ok resp, 1, 2⟩
      | Except.error e =>
          ⟨Except.error (GoError.wrap "could not send the request" e), 1, 2⟩

/-! ## Pool acquisition (`findConnection`, fcgi_client.go 111-121) -/

/-- Events the blocked acquisition loop can observe.  The Go `select`
in `findConnection` has exactly two cases: the one-second diagnostic
timer and a receive from the pool channel.  A cancellation of the
request's context is an event of the environment that the select does
not watch. -/
inductive PoolEvent where
  | timerFired
  | connAvailable (c : Nat)
  | contextCancelled
deriving DecidableEq

/-- `findConnection` over a trace of environment events: a timer tick
logs a saturation message and loops; a pool receive returns that
connection; a context cancellation is not selected on and changes
nothing.  An exhausted trace (`[]`) means the caller is still blocked
with no connection ever having become available. -/
def findConnection : List PoolEvent → Option Nat
  | [] => none
  | PoolEvent.timerFired :: rest => findConnection rest
  | PoolEvent.contextCancelled :: rest => findConnection rest
  | PoolEvent.connAvailable c :: _ => some c

/-- The connection delivered by a trace: the first pool receive in it. -/
def firstAvailableConn (evs : List PoolEvent) : Option Nat :=
  evs.findSome? (fun e =>
    match e with
    | PoolEvent.connAvailable c => some c
    | _ => none)

/-! ## HTTP response decoding (`readResponse`, fcgi_client.go 272-295)

The Go code prepends the literal `HTTP/1.0 200 OK\r\n` to the
accumulated stdout and hands the result to `net/http.ReadResponse`.
The definitions below model the relevant behaviour of the standard
library on such inputs: status-line parsing, the MIME header block
(one `Key: value` per `\r\n`-terminated line, terminated by an empty
line, canonicalized keys), and `Header.Get`.  Omitted stdlib details
that no claim touches: folded (continuation) header lines, bare-`\n`
line endings, `Content-Length`/`Transfer-Encoding` body framing, and
`strconv.Atoi`'s bit-size range check. -/

/-- Split a character stream on `\r\n` boundaries (the line structure
`textproto.Reader` sees on CRLF-terminated input). -/
def splitOnCRLF : List Char → List (List Char)
  | [] => [[]]
  | '\r' :: '\n' :: rest => [] :: splitOnCRLF rest
  | c :: rest =>
    match splitOnCRLF rest with
    | h :: t => (c :: h) :: t
    | [] => [[c]]

/-- Go `strings.Split(s, " ")`: split on every single space, no
collapsing of repeats. -/
def splitOnSpace : List Char → List (List Char)
  | [] => [[]]
  | ' ' :: rest => [] :: splitOnSpace rest
  | c :: rest =>
    match splitOnSpace rest with
    | h :: t => (c :: h) :: t
    | [] => [[c]]

/-- Go `strings.Cut(s, string(c))`: the parts before and after the first
occurrence of `c`, or `none` when `c` does not occur. -/
def cutChar (c : Char) : List Char → Option (List Char × List Char)
  | [] => none
  | x :: xs =>
    if x = c then some ([], xs)
    else
      match cutChar c xs with
      | none => none
      | some (a, b) => some (x :: a, b)

/-- Drop leading spaces (Go `strings.TrimLeft(s, " ")`). -/
def trimLeftSpaceOnly : List Char → List Char
  | ' ' :: rest => trimLeftSpaceOnly rest
  | l => l

/-- Drop leading spaces and tabs (leading whitespace of a MIME header
value). -/
def trimLeftSpaceTab : List Char → List Char
  | ' ' :: rest => trimLeftSpaceTab rest
  | '\t' :: rest => trimLeftSpaceTab rest
  | l => l

/-- Valid MIME header key byte (`validHeaderFieldByte` in textproto):
letters, digits, and the RFC 7230 token specials. -/
def isTokenChar (c : Char) : Bool :=
  c.isAlphanum || [33, 35, 36, 37, 38, 39, 42, 43, 45, 46, 94, 95, 96,
    124, 126].contains c.toNat

/-- The case-folding pass of `textproto.CanonicalMIMEHeaderKey`:
uppercase the first letter and each letter following a hyphen,
lowercase the rest. -/
def canonFold : Bool → List Char → List Char
  | _, [] => []
  | up, c :: cs => (if up then c.toUpper else c.toLower) :: canonFold (c == '-') cs

/-- `textproto.CanonicalMIMEHeaderKey`: canonicalize a key made of valid
token bytes, leave any other key unchanged. -/
def canonicalMIMEHeaderKey (k : List Char) : List Char :=
  if k.all isTokenChar then canonFold true k else k

/-- Parse one MIME header line `Key: value`: split at the first colon;
the key must be non-empty and all token bytes (otherwise
`ReadMIMEHeader` fails with a protocol error); it is stored
canonicalized, with leading whitespace stripped from the value. -/
def parseHeaderLine (line : List Char) : Option (List Char × List Char) :=
  match cutChar ':' line with
  | none => none
  | some (k, v) =>
    if k = [] then none
    else if k.all isTokenChar then some (canonFold true k, trimLeftSpaceTab v)
    else none

/-- Parse the MIME header block from the line list: header lines up to
the first empty line, which terminates the block; the remaining lines
are the body.  The last element of a `splitOnCRLF` result is the segment
after the final `\r\n`, not a terminated line, so a list ending there
(`[]` or `[[]]`) means the input ran out before the blank line: the
`io.ErrUnexpectedEOF` failure of `ReadResponse`. -/
def parseMimeHeaders : List (List Char) →
    Option (List (List Char × List Char) × List (List Char))
  | [] => none
  | [[]] => none
  | [] :: rest => some ([], rest)
  | line :: rest =>
    match parseHeaderLine line with
    | none => none
    | some kv =>
      match parseMimeHeaders rest with
      | none => none
      | some (hs, body) => some (kv :: hs, body)

/-- Digit run of `strconv.Atoi`: accumulate decimal digits, fail on any
non-digit. -/
def digitsValAux : List Char → Nat → Option Nat
  | [], acc => some acc
  | c :: cs, acc =>
    if c.isDigit then digitsValAux cs (acc * 10 + (c.toNat - 48)) else none

/-- `strconv.Atoi`: optional sign followed by a non-empty digit run
(the `int` range check is not modelled). -/
def atoiChars : List Char → Option Int
  | [] => none
  | '+' :: rest =>
    if rest = [] then none else (digitsValAux rest 0).map (fun n => (n : Int))
  | '-' :: rest =>
    if rest = [] then none else (digitsValAux rest 0).map (fun n => -(n : Int))
  | l => (digitsValAux l 0).map (fun n => (n : Int))

/-- The fields of Go's `http.Response` that this program reads:
`StatusCode`, `Status`, `Header`, and the body bytes. -/
structure HttpResponseM where
  statusCode : Int
  status : List Char
  headers : List (List Char × List Char)
  body : List Char
deriving DecidableEq

/-- Status-line parsing of `http.ReadResponse`: cut at the first space
into protocol and status; the first space-cut token of the status must
be exactly three bytes and parse as a non-negative integer. -/
def parseStatusLine (line : List Char) : Option (Int × List Char) :=
  match cutChar ' ' line with
  | none => none
  | some (proto, statusPart) =>
    if proto = "HTTP/1.0".toList ∨ proto = "HTTP/1.1".toList then
      let statusText := trimLeftSpaceOnly statusPart
      let codeStr :=
        match cutChar ' ' statusText with
        | none => statusText
        | some (a, _) => a
      if codeStr.length = 3 then
        match atoiChars codeStr with
        | none => none
        | some n => if n < 0 then none else some (n, statusText)
      else none
    else none

/-- `http.ReadResponse` on a CRLF-lined byte stream: status line, MIME
header block, body. -/
def readHttpResponse (s : List Char) : Option HttpResponseM :=
  match splitOnCRLF s with
  | [] => none
  | statusLine :: rest =>
    match parseStatusLine statusLine with
    | none => none
    | some (code, statusText) =>
      match parseMimeHeaders rest with
      | none => none
      | some (hs, bodyLines) =>
        some { statusCode := code
               status := statusText
               headers := hs
               body := List.intercalate ['\r', '\n'] bodyLines }

/-- `http.Header.Get`: the first value stored under the canonicalized
key, or the empty string if absent. -/
def headerGet (hs : List (List Char × List Char)) (name : List Char) : List Char :=
  match hs.find? (fun kv => kv.1 == canonicalMIMEHeaderKey name) with
  | some kv => kv.2
  | none => []

/-- The literal preamble `"HTTP/1.0 200 OK\r\n"` prepended to the
accumulated stdout (fcgi_client.go 272). -/
def synthPreamble : List Char := "HTTP/1.0 200 OK\r\n".toList

/-- The header name `"Status"` looked up by `readResponse`. -/
def statusKey : List Char := "Status".toList

/-- The decoding tail of `readResponse` (fcgi_client.go 272-295): parse
the synthesized bytes as an HTTP response, then override the status from
a `Status` header when present: the full header string becomes the
textual status, `strings.Split(status, " ")` must yield at least two
parts, and `strconv.Atoi` of the first part becomes the numeric code.
`none` models the error returns. -/
def readResponseParse (stdout : List Char) : Option HttpResponseM :=
  match readHttpResponse (synthPreamble ++ stdout) with
  | none => none
  | some resp =>
    let status := headerGet resp.headers statusKey
    if status = [] then some resp
    else
      let s := splitOnSpace status
      if s.length < 2 then none
      else
        match atoiChars (s.headD []) with
        | none => none
        | some code => some { resp with statusCode := code, status := status }

/-- The claim's reading of the `Status` header: the numeric code is the
first space-separated token parsed as a decimal integer, and the header
is malformed exactly when it has fewer than two space-separated fields
or a non-integer first field. -/
def statusTokenCode (status : List Char) : Option Int :=
  if (splitOnSpace status).length < 2 then none
  else atoiChars ((splitOnSpace status).headD [])

/-- Concrete stdout whose `Status` header carries the numeric code 0. -/
def zeroStatusStdout : List Char := "Status: 0 NoContent\r\n\r\n".toList


/-! ## Theorems -/

/-- Arithmetic form of Go's `byte(-contentLength & 7)`. -/
theorem negMod8_eq (n : Nat) : negMod8 n = (8 - n % 8) % 8 := by
  unfold negMod8
  omega

/-- C5: for every record emitted by `writeRecord`, the header's padding
length equals `(-content_length) mod 8`, hence `0 ≤ padding_length ≤ 7`
and `(content_length + padding_length) mod 8 = 0`, and exactly
`padding_length` zero bytes follow the payload on the wire. -/
theorem writeRecord_padding_invariant (requestId recordType : Nat)
    (contentData : List Nat) :
    (writeRecordHeader requestId recordType contentData.length).paddingLength
        = ((-(contentData.length : Int)) % 8).toNat ∧
    (writeRecordHeader requestId recordType contentData.length).paddingLength ≤ 7 ∧
    ((writeRecordHeader requestId recordType contentData.length).contentLength +
        (writeRecordHeader requestId recordType contentData.length).paddingLength) % 8
      = 0 ∧
    (writeRecord requestId recordType contentData).take (8 + contentData.length)
      = encodeRecordHeader (writeRecordHeader requestId recordType contentData.length)
          ++ contentData ∧
    (writeRecord requestId recordType contentData).drop (8 + contentData.length)
      = List.replicate
          (writeRecordHeader requestId recordType contentData.length).paddingLength 0 := by
  have hpad : (writeRecordHeader requestId recordType contentData.length).paddingLength
      = (8 - contentData.length % 8) % 8 := negMod8_eq contentData.length
  have hlen : (encodeRecordHeader
      (writeRecordHeader requestId recordType contentData.length)).length = 8 := by
    simp [encodeRecordHeader, be16]
  refine ⟨rfl, by omega, ?_, ?_, ?_⟩
  · have hcl : (writeRecordHeader requestId recordType contentData.length).contentLength
        = contentData.length % 65536 := rfl
    omega
  · show ((encodeRecordHeader _ ++ contentData) ++ _).take (8 + contentData.length) = _
    rw [List.take_append_of_le_length (by simp [hlen])]
    rw [List.take_of_length_le (by simp [hlen])]
  · show ((encodeRecordHeader _ ++ contentData) ++ _).drop (8 + contentData.length) = _
    rw [List.drop_append_of_le_length (by simp [hlen])]
    rw [List.drop_of_length_le (by simp [hlen])]
    simp

/-- C4 counterexample: with the acquisition context cancelled while the
caller is blocked, `findConnection` does not stop blocking with an
`AcquireCancelled` result: it ignores the cancellation, keeps waiting
(returning nothing while no connection is free), and hands out the next
free connection as if nothing happened. -/
theorem findConnection_cancellation_cex :
    findConnection [PoolEvent.contextCancelled, PoolEvent.timerFired,
        PoolEvent.connAvailable 7] = some 7 ∧
    findConnection [PoolEvent.contextCancelled, PoolEvent.timerFired,
        PoolEvent.timerFired] = none :=
  ⟨rfl, rfl⟩

/-- C4 (amended): `findConnection` watches only its one-second diagnostic
timer and the pool channel; it blocks until a connection is available and
returns the first one delivered, and a context cancellation event changes
nothing — no `AcquireCancelled` result exists.  (The request deadline is
enforced by the HTTP handler abandoning the worker goroutine instead.) -/
theorem findConnection_blocks_until_available (evs : List PoolEvent) :
    findConnection evs = firstAvailableConn evs ∧
    findConnection (PoolEvent.contextCancelled :: evs) = findConnection evs := by
  refine ⟨?_, rfl⟩
  induction evs with
  | nil => rfl
  | cons e rest ih =>
    cases e <;> simp [findConnection, firstAvailableConn, List.findSome?_cons] <;>
      simpa [firstAvailableConn] using ih

/-- C1: in `readResponse` a record whose request id differs from the
request's is "skipped" by `continue` right after the header has been
read: its payload and padding are NOT discarded, so the next header read
begins inside the skipped record's payload instead of at the following
record boundary.  On `skipBugStream` (a foreign 8-byte-payload record
followed by the matching END_REQUEST) the code misparses the foreign
payload as a header and fails, while the discard behaviour stated by the
claim reads the stream correctly. -/
theorem readResponse_skip_divergence :
    readResponseRecords 1 4 skipBugStream [] = none ∧
    readResponseRecordsSpec 1 4 skipBugStream [] = some [] :=
  ⟨rfl, rfl⟩

/-- C9: the buffer for a matching record's payload plus padding is sized
in unsigned 16-bit arithmetic, `(content_length + padding_length) mod
65536`; whenever `content_length + padding_length ≥ 65536` this reads
fewer bytes than the record occupies on the stream. -/
theorem matchedReadLen_uint16 (h : FCgiRecord) :
    matchedReadLen h = (h.contentLength + h.paddingLength) % 65536 ∧
    (65536 ≤ h.contentLength + h.paddingLength →
      matchedReadLen h < h.contentLength + h.paddingLength) := by
  refine ⟨rfl, fun hge => ?_⟩
  unfold matchedReadLen
  omega

/-- C9 witness: at content length 65535 and padding length 1 the computed
read size is 0, strictly less than the 65536 bytes the record occupies. -/
theorem matchedReadLen_uint16_witness :
    matchedReadLen ⟨1, 6, 0, 65535, 1, 0⟩ = 0 ∧
    matchedReadLen ⟨1, 6, 0, 65535, 1, 0⟩ < 65535 + 1 :=
  ⟨rfl, (matchedReadLen_uint16 ⟨1, 6, 0, 65535, 1, 0⟩).2 (by norm_num)⟩

/-- Unfolding of `bodyChunks` on a non-empty body. -/
theorem bodyChunks_cons (b : List Nat) (h : b ≠ []) :
    bodyChunks b = b.take 65535 :: bodyChunks (b.drop 65535) := by
  cases b with
  | nil => exact absurd rfl h
  | cons x xs => rw [bodyChunks]

/-- The chunks of `sendBody` concatenate back to the body. -/
theorem bodyChunks_flatten : ∀ b : List Nat, (bodyChunks b).flatten = b := by
  intro b
  induction b using bodyChunks.induct with
  | case1 => simp [bodyChunks]
  | case2 x xs ih =>
    rw [bodyChunks, List.flatten_cons, ih, List.take_append_drop]

/-- One-step unfolding of the expected chunk lengths for a positive
body length. -/
theorem chunkLensCore_pos (n : Nat) (h : 0 < n) :
    chunkLensCore n = min 65535 n :: chunkLensCore (n - 65535) := by
  rw [chunkLensCore]
  split_ifs with h1 h2
  · omega
  · have hmin : min 65535 n = n := by omega
    have hz : n - 65535 = 0 := by omega
    rw [hmin, hz]
    simp [chunkLensCore]
  · have hmin : min 65535 n = 65535 := by omega
    rw [hmin]

/-- The lengths of the chunks produced by `bodyChunks`. -/
theorem bodyChunks_map_length : ∀ b : List Nat,
    (bodyChunks b).map List.length = chunkLensCore b.length := by
  intro b
  induction b using bodyChunks.induct with
  | case1 => simp [bodyChunks, chunkLensCore]
  | case2 x xs ih =>
    rw [bodyChunks, List.map_cons, ih, List.length_drop, List.length_take,
      chunkLensCore_pos (x :: xs).length (by simp)]

/-- Every expected chunk length is positive and at most 65535. -/
theorem chunkLensCore_mem_bounds : ∀ n : Nat, ∀ c ∈ chunkLensCore n,
    0 < c ∧ c ≤ 65535 := by
  intro n
  induction n using chunkLensCore.induct with
  | case1 => simp [chunkLensCore]
  | case2 x h1 h2 =>
    intro c hc
    rw [chunkLensCore, if_neg h1, if_pos h2, List.mem_singleton] at hc
    omega
  | case3 x h1 h2 ih =>
    intro c hc
    rw [chunkLensCore, if_neg h1, if_neg h2] at hc
    rcases List.mem_cons.mp hc with hc | hc
    · omega
    · exact ih c hc

/-- Every expected chunk length except the final one is exactly 65535. -/
theorem chunkLensCore_full : ∀ n i, i + 1 < (chunkLensCore n).length →
    (chunkLensCore n).getD i 0 = 65535 := by
  intro n
  induction n using chunkLensCore.induct with
  | case1 =>
    intro i hi
    rw [chunkLensCore] at hi
    simp at hi
  | case2 x h1 h2 =>
    intro i hi
    rw [chunkLensCore, if_neg h1, if_pos h2] at hi
    simp at hi
  | case3 x h1 h2 ih =>
    intro i hi
    rw [chunkLensCore, if_neg h1, if_neg h2] at hi
    rw [chunkLensCore, if_neg h1, if_neg h2]
    cases i with
    | zero => rw [List.getD_cons_zero]
    | succ j =>
      rw [List.length_cons] at hi
      rw [List.getD_cons_succ]
      exact ih j (Nat.lt_of_succ_lt_succ hi)

/-- C6: `sendBody` emits the consecutive chunks of the body in order as
STDIN records — each of length 65535 except a possibly shorter final
chunk — followed by exactly one zero-length STDIN record; an empty body
yields exactly the zero-length record, a 65535-byte body yields record
lengths `[65535, 0]`, and a 65536-byte body yields `[65535, 1, 0]`. -/
theorem sendBody_chunking :
    (∀ body : List Nat,
      (sendBody body).map List.length = chunkLens body.length ∧
      (sendBody body).flatten = body) ∧
    (∀ n : Nat,
      (chunkLens n).getLast? = some 0 ∧
      (chunkLens n).count 0 = 1 ∧
      (∀ c ∈ chunkLens n, c ≤ 65535) ∧
      (∀ i, i + 2 < (chunkLens n).length → (chunkLens n).getD i 0 = 65535)) ∧
    chunkLens 0 = [0] ∧
    chunkLens 65535 = [65535, 0] ∧
    chunkLens 65536 = [65535, 1, 0] := by
  have hif : ∀ body : List Nat,
      sendBody body = bodyChunks body ++ [[]] := by
    intro body
    cases body with
    | nil => simp [sendBody, bodyChunks]
    | cons x xs => simp [sendBody]
  refine ⟨fun body => ⟨?_, ?_⟩, fun n => ⟨?_, ?_, ?_, ?_⟩, ?_, ?_, ?_⟩
  · rw [hif, List.map_append, bodyChunks_map_length, chunkLens]
    rfl
  · rw [hif, List.flatten_append, bodyChunks_flatten]
    simp
  · rw [chunkLens]
    simp
  · rw [chunkLens, List.count_append]
    have hz : (chunkLensCore n).count 0 = 0 := by
      rw [List.count_eq_zero]
      intro hmem
      exact absurd ((chunkLensCore_mem_bounds n 0 hmem).1) (lt_irrefl 0)
    rw [hz]
    rfl
  · intro c hc
    rw [chunkLens] at hc
    rcases List.mem_append.mp hc with hc | hc
    · exact (chunkLensCore_mem_bounds n c hc).2
    · rw [List.mem_singleton] at hc
      omega
  · intro i hi
    rw [chunkLens] at hi ⊢
    rw [List.length_append] at hi
    simp only [List.length_cons, List.length_nil] at hi
    have hlt : i < (chunkLensCore n).length := by omega
    rw [List.getD_append _ _ _ _ hlt]
    exact chunkLensCore_full n i (by omega)
  · rw [chunkLens, chunkLensCore]
    norm_num
  · have h1 : chunkLensCore 65535 = [65535] := by
      rw [chunkLensCore]
      norm_num
    rw [chunkLens, h1]
    rfl
  · have h1 : chunkLensCore 1 = [1] := by
      rw [chunkLensCore]
      norm_num
    have h2 : chunkLensCore 65536 = 65535 :: chunkLensCore 1 := by
      rw [chunkLensCore]
      norm_num
    rw [chunkLens, h2, h1]
    rfl

/-- C6 witness: for a 200000-byte body the record length list is
`[65535, 65535, 65535, 3395, 0]`; the bound and full-chunk clauses of
`sendBody_chunking` hold at concrete indices. -/
theorem sendBody_chunking_witness :
    0 + 2 < (chunkLens 200000).length ∧ (chunkLens 200000).getD 0 0 = 65535 ∧
    65535 ∈ chunkLens 200000 ∧ 65535 ≤ 65535 := by
  have c1 : chunkLensCore 3395 = [3395] := by
    rw [chunkLensCore]
    norm_num
  have c2 : chunkLensCore 68930 = 65535 :: chunkLensCore 3395 := by
    rw [chunkLensCore]
    norm_num
  have c3 : chunkLensCore 134465 = 65535 :: chunkLensCore 68930 := by
    rw [chunkLensCore]
    norm_num
  have c4 : chunkLensCore 200000 = 65535 :: chunkLensCore 134465 := by
    rw [chunkLensCore]
    norm_num
  have hlen : chunkLens 200000 = [65535, 65535, 65535, 3395, 0] := by
    rw [chunkLens, c4, c3, c2, c1]
    rfl
  exact ⟨by rw [hlen]; norm_num,
    (sendBody_chunking.2.1 200000).2.2.2 0 (by rw [hlen]; norm_num),
    by rw [hlen]; norm_num,
    (sendBody_chunking.2.1 200000).2.2.1 65535 (by rw [hlen]; norm_num)⟩


/-- Bits below `2 ^ k` and the bit at `2 ^ k` are disjoint, so the
bitwise or of the Go expression `uint32(len) | 1<<31` is an addition. -/
theorem lor_two_pow_of_lt : ∀ (k n : Nat), n < 2 ^ k → n ||| 2 ^ k = n + 2 ^ k := by
  intro k
  induction k with
  | zero =>
    intro n hn
    have h0 : n = 0 := by omega
    subst h0
    decide
  | succ k ih =>
    intro n hn
    have h2 : 2 ^ (k + 1) = 2 * 2 ^ k := by rw [Nat.pow_succ]; ring
    have hd : Nat.bit (Nat.bodd n) (Nat.div2 n) = n := Nat.bit_decomp n
    have hp : Nat.bit false (2 ^ k) = 2 ^ (k + 1) := by
      simp [Nat.bit]
      omega
    rw [← hd, ← hp, Nat.lor_bit]
    have hlt : Nat.div2 n < 2 ^ k := by
      rw [Nat.div2_val]
      omega
    rw [ih (Nat.div2 n) hlt, Bool.or_false, Nat.bit_add']

/-- `uint32(n) | 1<<31` for a length below `2^31`. -/
theorem length_lor_high (n : Nat) (h : n < 2147483648) :
    n % 4294967296 ||| 2147483648 = 2147483648 + n := by
  rw [Nat.mod_eq_of_lt (by omega)]
  have h31 : (2 : Nat) ^ 31 = 2147483648 := by norm_num
  rw [← h31]
  rw [lor_two_pow_of_lt 31 n (by rw [h31]; exact h)]
  omega

/-- `be32` round-trips through big-endian decoding modulo `2^32`. -/
theorem decodeBe32_be32 (m : Nat) : decodeBe32 (be32 m) = m % 4294967296 := by
  simp only [decodeBe32, be32]
  omega

/-- Shape of a single PARAMS record payload (fcgi_client.go 200-212). -/
theorem encodeNameValue_spec (name value : List Nat)
    (hn : name.length < 2147483648) (hv : value.length < 2147483648) :
    (encodeNameValue name value).length = 4 + 4 + name.length + value.length ∧
    (encodeNameValue name value).take 4 = be32 (2147483648 + name.length) ∧
    ((encodeNameValue name value).drop 4).take 4 = be32 (2147483648 + value.length) ∧
    (encodeNameValue name value).drop 8 = name ++ value ∧
    decodeBe32 ((encodeNameValue name value).take 4) = 2147483648 + name.length ∧
    128 ≤ ((encodeNameValue name value).headD 0) ∧
    ((encodeNameValue name value).headD 0) < 256 := by
  rw [encodeNameValue, length_lor_high name.length hn, length_lor_high value.length hv]
  refine ⟨?_, ?_, ?_, ?_, ?_, ?_, ?_⟩
  · simp [be32]
    omega
  · simp [be32]
  · simp [be32]
  · simp [be32]
  · simp [be32, decodeBe32]
    omega
  · simp [be32]
    omega
  · simp [be32]
    omega

/-- C7: `sendParams` writes one PARAMS record per parameter pair whose
payload is the 4-byte big-endian length of the name with the high bit
set, then the same for the value, then the name and value bytes — a
content length of `4 + 4 + len(k) + len(v)` — and terminates the stream
with exactly one zero-length PARAMS record. -/
theorem sendParams_record_encoding (params : List (String × String)) (body : List Nat) :
    (sendParams params body).2
      = (sendParamsParams params body).map
          (fun kv => encodeNameValue (asciiBytes kv.1) (asciiBytes kv.2)) ++ [[]] ∧
    (sendParams params body).2.getLast? = some [] ∧
    (∀ r ∈ (sendParams params body).2.dropLast, 8 ≤ r.length) ∧
    (∀ name value : List Nat,
      name.length < 2147483648 → value.length < 2147483648 →
      (encodeNameValue name value).length = 4 + 4 + name.length + value.length ∧
      (encodeNameValue name value).take 4 = be32 (2147483648 + name.length) ∧
      ((encodeNameValue name value).drop 4).take 4 = be32 (2147483648 + value.length) ∧
      (encodeNameValue name value).drop 8 = name ++ value ∧
      decodeBe32 ((encodeNameValue name value).take 4) = 2147483648 + name.length ∧
      128 ≤ ((encodeNameValue name value).headD 0) ∧
      ((encodeNameValue name value).headD 0) < 256) := by
  refine ⟨rfl, ?_, ?_, fun name value hn hv => encodeNameValue_spec name value hn hv⟩
  · simp [sendParams]
  · intro r hr
    simp only [sendParams, List.dropLast_concat] at hr
    rcases List.mem_map.mp hr with ⟨kv, _, rfl⟩
    simp [encodeNameValue, be32]

/-- C7 witness: for the concrete pair `("A", "xy")` the record payload
has length `4 + 4 + 1 + 2`, its first four bytes decode (big-endian) to
`2^31 + 1`, and its first byte has the high bit set. -/
theorem sendParams_record_encoding_witness :
    (encodeNameValue (asciiBytes "A") (asciiBytes "xy")).length = 4 + 4 + 1 + 2 ∧
    decodeBe32 ((encodeNameValue (asciiBytes "A") (asciiBytes "xy")).take 4)
      = 2147483648 + 1 ∧
    128 ≤ (encodeNameValue (asciiBytes "A") (asciiBytes "xy")).headD 0 ∧
    (sendParams [("A", "xy")] []).2.getLast? = some [] := by
  have h := sendParams_record_encoding [("A", "xy")] []
  have hn : (asciiBytes "A").length = 1 := rfl
  have hv : (asciiBytes "xy").length = 2 := rfl
  have hs := h.2.2.2 (asciiBytes "A") (asciiBytes "xy") (by rw [hn]; norm_num)
    (by rw [hv]; norm_num)
  exact ⟨by rw [hs.1, hn, hv], by rw [hs.2.2.2.2.1, hn], hs.2.2.2.2.2.1, h.2.1⟩

/-- First values of `List.find?` are unchanged by the overwrite pass of
`mapInsert` when looking up a different key. -/
theorem find_overwrite_other (m : List (String × String)) (k v q : String) (hq : q ≠ k) :
    (m.map (fun kv => if kv.1 = k then (k, v) else kv)).find? (fun kv => kv.1 = q)
      = m.find? (fun kv => kv.1 = q) := by
  induction m with
  | nil => rfl
  | cons kv rest ih =>
    by_cases hk : kv.1 = k
    · have h1 : (decide ((k, v).1 = q)) = false := decide_eq_false fun h => hq h.symm
      have h2 : (decide (kv.1 = q)) = false := decide_eq_false fun h => hq (hk ▸ h).symm
      simp only [List.map_cons, if_pos hk, List.find?_cons, h1, h2]
      exact ih
    · simp only [List.map_cons, if_neg hk, List.find?_cons]
      cases hdec : decide (kv.1 = q) with
      | true => rfl
      | false => exact ih

/-- The overwrite pass of `mapInsert` makes the assigned key map to the
new value. -/
theorem find_overwrite_self (m : List (String × String)) (k v : String)
    (hany : m.any (fun kv => kv.1 = k) = true) :
    (m.map (fun kv => if kv.1 = k then (k, v) else kv)).find? (fun kv => kv.1 = k)
      = some (k, v) := by
  induction m with
  | nil => simp at hany
  | cons kv rest ih =>
    by_cases hk : kv.1 = k
    · simp only [List.map_cons, if_pos hk]
      rw [List.find?_cons_of_pos _ (by simp)]
    · have hrest : rest.any (fun kv => decide (kv.1 = k)) = true := by
        rw [List.any_cons] at hany
        rcases Bool.or_eq_true_iff.mp hany with h | h
        · exact absurd (of_decide_eq_true h) hk
        · exact h
      simp only [List.map_cons, if_neg hk, List.find?_cons, decide_eq_false hk]
      exact ih hrest

/-- Lookup after a Go map assignment: the assigned key maps to the new
value and every other key is untouched. -/
theorem mapLookup_mapInsert (m : List (String × String)) (k v q : String) :
    mapLookup (mapInsert m k v) q = if q = k then some v else mapLookup m q := by
  by_cases hany : (m.any (fun kv => kv.1 = k)) = true
  · rw [mapInsert, if_pos hany]
    by_cases hq : q = k
    · subst hq
      rw [if_pos rfl, mapLookup, find_overwrite_self m q v hany]
      rfl
    · rw [if_neg hq, mapLookup, mapLookup, find_overwrite_other m k v q hq]
  · rw [mapInsert, if_neg hany]
    by_cases hq : q = k
    · subst hq
      rw [if_pos rfl, mapLookup, List.find?_append]
      have hnone : m.find? (fun kv => decide (kv.1 = q)) = none := by
        rw [List.find?_eq_none]
        intro x hx hpx
        exact hany (List.any_eq_true.mpr ⟨x, hx, hpx⟩)
      rw [hnone]
      rw [List.find?_cons_of_pos _ (by simp)]
      rfl
    · rw [if_neg hq, mapLookup, mapLookup, List.find?_append]
      have hsingle : ([(k, v)] : List (String × String)).find?
          (fun kv => kv.1 = q) = none := by
        rw [List.find?_eq_none]
        intro x hx hpx
        rw [List.mem_singleton] at hx
        subst hx
        exact hq (of_decide_eq_true hpx).symm
      rw [hsingle]
      cases m.find? (fun kv => decide (kv.1 = q)) <;> rfl

/-- C10: with a non-empty body, `sendParams` updates the caller-supplied
parameter map itself (the Go map is shared with the adapter's
`FCgiRequest`, including across the reconnect retry): afterwards it
contains `CONTENT_LENGTH ↦ strconv.Itoa(len(body))`, and the entry for
every other key is unchanged. -/
theorem sendParams_content_length_frame (params : List (String × String))
    (body : List Nat) (hbody : body ≠ []) :
    mapLookup (sendParamsParams params body) "CONTENT_LENGTH"
      = some (toString body.length) ∧
    (∀ q, q ≠ "CONTENT_LENGTH" →
      mapLookup (sendParamsParams params body) q = mapLookup params q) ∧
    (sendParams params body).1 = sendParamsParams params body := by
  have hpos : body.length > 0 := List.length_pos.mpr hbody
  refine ⟨?_, fun q hq => ?_, rfl⟩
  · rw [sendParamsParams, if_pos hpos, mapLookup_mapInsert, if_pos rfl]
  · rw [sendParamsParams, if_pos hpos, mapLookup_mapInsert, if_neg hq]

/-- C10 witness: inserting into the concrete map `[("A", "1")]` for the
two-byte body `[104, 105]` yields `CONTENT_LENGTH ↦ "2"` and leaves the
entry of `"A"` unchanged. -/
theorem sendParams_content_length_frame_witness :
    mapLookup (sendParamsParams [("A", "1")] [104, 105]) "CONTENT_LENGTH"
      = some "2" ∧
    mapLookup (sendParamsParams [("A", "1")] [104, 105]) "A" = some "1" := by
  have h := sendParams_content_length_frame [("A", "1")] [104, 105] (by simp)
  refine ⟨h.1, ?_⟩
  rw [h.2.1 "A" (by decide)]
  rfl

/-- C3: whenever the first `doRequest` fails, `SendRequest` invokes
`reconnect` on the held connection exactly once; a reconnect failure is
returned as the reconnect error (wrapped in the "could not reconnect"
messages produced by `%w`); otherwise `doRequest` runs exactly once more
and a second failure is returned with the failing error itself as the
wrapped cause (no substitution of another error). -/
theorem sendRequest_retry_policy (first : Except GoError Nat) (dial : Option GoError)
    (second : Except GoError Nat) (e1 : GoError) (hfail : first = Except.error e1) :
    (sendRequest first dial second).reconnectCalls = 1 ∧
    (∀ e, dial = some e →
      (sendRequest first dial second).result
        = Except.error (GoError.wrap "could not reconnect"
            (GoError.wrap "could not reconnect" e)) ∧
      (sendRequest first dial second).doRequestCalls = 1) ∧
    (dial = none →
      (sendRequest first dial second).doRequestCalls = 2 ∧
      (∀ r, second = Except.ok r →
        (sendRequest first dial second).result = Except.ok r) ∧
      (∀ e2, second = Except.error e2 →
        (sendRequest first dial second).result
          = Except.error (GoError.wrap "could not send the request" e2) ∧
        errorCause (GoError.wrap "could not send the request" e2) = some e2)) := by
  subst hfail
  refine ⟨?_, ?_, ?_⟩
  · cases dial <;> cases second <;> rfl
  · intro e he
    subst he
    exact ⟨rfl, rfl⟩
  · intro hd
    subst hd
    refine ⟨?_, ?_, ?_⟩
    · cases second <;> rfl
    · intro r hr
      subst hr
      rfl
    · intro e2 he
      subst he
      exact ⟨rfl, rfl⟩

/-- C3 witness: a failing first call, a successful reconnect dial and a
failing second call produce exactly one reconnect, two `doRequest`
invocations and the second error as the returned cause. -/
theorem sendRequest_retry_policy_witness :
    (sendRequest (Except.error (GoError.base "w")) none
        (Except.error (GoError.base "z"))).result
      = Except.error (GoError.wrap "could not send the request" (GoError.base "z")) ∧
    (sendRequest (Except.error (GoError.base "w")) none
        (Except.error (GoError.base "z"))).reconnectCalls = 1 ∧
    (sendRequest (Except.error (GoError.base "w")) none
        (Except.error (GoError.base "z"))).doRequestCalls = 2 :=
  have h := sendRequest_retry_policy (Except.error (GoError.base "w")) none
      (Except.error (GoError.base "z")) (GoError.base "w") rfl
  ⟨((h.2.2 rfl).2.2 (GoError.base "z") rfl).1, h.1, (h.2.2 rfl).1⟩

/-- The synthesized preamble always parses as status line `200 OK`; the
rest of the parse is the MIME header block of the stdout bytes. -/
theorem readHttpResponse_synth (stdout : List Char) :
    readHttpResponse (synthPreamble ++ stdout)
      = match parseMimeHeaders (splitOnCRLF stdout) with
        | none => none
        | some (hs, bodyLines) =>
          some { statusCode := 200, status := "200 OK".toList, headers := hs,
                 body := List.intercalate ['\r', '\n'] bodyLines } := rfl

/-- The status-override tail of `readResponse` expressed through
`statusTokenCode`, given a successful HTTP parse. -/
theorem readResponseParse_of_parse (stdout : List Char) (resp : HttpResponseM)
    (hh : readHttpResponse (synthPreamble ++ stdout) = some resp) :
    readResponseParse stdout
      = (if headerGet resp.headers statusKey = [] then some resp
         else
           match statusTokenCode (headerGet resp.headers statusKey) with
           | none => none
           | some code =>
             some { resp with
                    statusCode := code
                    status := headerGet resp.headers statusKey }) := by
  by_cases hst : headerGet resp.headers statusKey = []
  · simp [readResponseParse, hh, hst]
  · by_cases hlen : (splitOnSpace (headerGet resp.headers statusKey)).length < 2
    · simp [readResponseParse, hh, hst, hlen, statusTokenCode]
    · cases hat : atoiChars ((splitOnSpace (headerGet resp.headers statusKey)).headD []) with
      | none => simp [readResponseParse, hh, hst, hlen, statusTokenCode, hat]
      | some code => simp [readResponseParse, hh, hst, hlen, statusTokenCode, hat]

/-- A failed HTTP parse of the synthesized bytes fails `readResponse`. -/
theorem readResponseParse_of_none (stdout : List Char)
    (hh : readHttpResponse (synthPreamble ++ stdout) = none) :
    readResponseParse stdout = none := by
  simp [readResponseParse, hh]

/-- Any successful parse of the synthesized bytes carries status code
200 (from the injected preamble), before any `Status` override. -/
theorem statusCode_of_parse (stdout : List Char) (resp : HttpResponseM)
    (hh : readHttpResponse (synthPreamble ++ stdout) = some resp) :
    resp.statusCode = 200 := by
  rw [readHttpResponse_synth] at hh
  cases hm : parseMimeHeaders (splitOnCRLF stdout) with
  | none => rw [hm] at hh; cases hh
  | some pair =>
    rw [hm] at hh
    cases hh
    rfl

/-- C2: `readResponse` succeeds with status code 200 when no `Status`
header is present, succeeds with the first space-separated token of the
`Status` header parsed as a decimal integer (keeping the full string as
the textual status) when present and well formed — at least two
space-separated fields with an integer first field, per
`statusTokenCode` — and fails exactly when the synthesized bytes do not
parse as an HTTP response or the `Status` header is present but
malformed. -/
theorem readResponse_status_override (stdout : List Char) :
    (∀ resp, readHttpResponse (synthPreamble ++ stdout) = some resp →
      resp.statusCode = 200 ∧
      (headerGet resp.headers statusKey = [] → readResponseParse stdout = some resp) ∧
      (∀ code, statusTokenCode (headerGet resp.headers statusKey) = some code →
        readResponseParse stdout
          = some { resp with
                   statusCode := code
                   status := headerGet resp.headers statusKey })) ∧
    (readResponseParse stdout = none ↔
      readHttpResponse (synthPreamble ++ stdout) = none ∨
      ∃ resp, readHttpResponse (synthPreamble ++ stdout) = some resp ∧
        headerGet resp.headers statusKey ≠ [] ∧
        statusTokenCode (headerGet resp.headers statusKey) = none) := by
  constructor
  · intro resp hh
    refine ⟨statusCode_of_parse stdout resp hh, ?_, ?_⟩
    · intro hst
      rw [readResponseParse_of_parse stdout resp hh, if_pos hst]
    · intro code hcode
      have hst : headerGet resp.headers statusKey ≠ [] := by
        intro h
        rw [h, show statusTokenCode [] = none from rfl] at hcode
        cases hcode
      rw [readResponseParse_of_parse stdout resp hh, if_neg hst, hcode]
  · constructor
    · intro hnone
      cases hh : readHttpResponse (synthPreamble ++ stdout) with
      | none => exact Or.inl rfl
      | some resp =>
        right
        rw [readResponseParse_of_parse stdout resp hh] at hnone
        by_cases hst : headerGet resp.headers statusKey = []
        · rw [if_pos hst] at hnone
          cases hnone
        · rw [if_neg hst] at hnone
          cases hcode : statusTokenCode (headerGet resp.headers statusKey) with
          | none => exact ⟨resp, rfl, hst, hcode⟩
          | some code =>
            rw [hcode] at hnone
            cases hnone
    · intro h
      rcases h with hh | ⟨resp, hh, hst, hcode⟩
      · exact readResponseParse_of_none stdout hh
      · rw [readResponseParse_of_parse stdout resp hh, if_neg hst, hcode]

/-- C2 witness: with stdout `"Status: 404 NF\r\n\r\n"` the parse
succeeds and the `Status` override yields code 404 with textual status
`404 NF`. -/
theorem readResponse_status_override_witness :
    readResponseParse "Status: 404 NF\r\n\r\n".toList
      = some { statusCode := 404
               status := "404 NF".toList
               headers := [("Status".toList, "404 NF".toList)]
               body := [] } :=
  ((readResponse_status_override "Status: 404 NF\r\n\r\n".toList).1
    { statusCode := 200
      status := "200 OK".toList
      headers := [("Status".toList, "404 NF".toList)]
      body := [] } rfl).2.2 404 rfl

/-- C8 counterexample: the stdout `"Status: 0 NoContent\r\n\r\n"` makes
`readResponse` succeed with numeric status code 0 — the claimed
impossibility of a status-0 success is false. -/
theorem readResponse_status_zero_cex :
    (readResponseParse zeroStatusStdout).map (fun r => r.statusCode) = some 0 := rfl

/-- C8 (amended): a successful `readResponse` result has status code 0
only when the stdout itself carries a `Status` header whose first
space-separated token parses to 0; with no `Status` header the code is
always 200. -/
theorem readResponse_status_zero_only_from_status (stdout : List Char)
    (resp : HttpResponseM) (h : readResponseParse stdout = some resp)
    (h0 : resp.statusCode = 0) :
    headerGet resp.headers statusKey ≠ [] ∧
    statusTokenCode (headerGet resp.headers statusKey) = some 0 := by
  cases hh : readHttpResponse (synthPreamble ++ stdout) with
  | none =>
    rw [readResponseParse_of_none stdout hh] at h
    cases h
  | some resp0 =>
    rw [readResponseParse_of_parse stdout resp0 hh] at h
    by_cases hst : headerGet resp0.headers statusKey = []
    · rw [if_pos hst] at h
      injection h with h
      subst h
      have h200 := statusCode_of_parse stdout resp0 hh
      omega
    · rw [if_neg hst] at h
      cases hcode : statusTokenCode (headerGet resp0.headers statusKey) with
      | none =>
        rw [hcode] at h
        cases h
      | some code =>
        rw [hcode] at h
        injection h with h
        subst h
        have hc0 : code = 0 := h0
        subst hc0
        exact ⟨hst, hcode⟩

/-- C8 witness: the amended theorem applied at the concrete status-0
stdout. -/
theorem readResponse_status_zero_only_from_status_witness :
    headerGet (HttpResponseM.mk 0 "0 NoContent".toList
      [("Status".toList, "0 NoContent".toList)] []).headers statusKey ≠ [] ∧
    statusTokenCode (headerGet (HttpResponseM.mk 0 "0 NoContent".toList
      [("Status".toList, "0 NoContent".toList)] []).headers statusKey) = some 0 :=
  readResponse_status_zero_only_from_status zeroStatusStdout
    (HttpResponseM.mk 0 "0 NoContent".toList
      [("Status".toList, "0 NoContent".toList)] []) rfl rfl
